import Mathlib

/-!
Verification of the SSH key abstraction layer of Guile-SSH.

The only source file available is `src/libguile-ssh/key-main.c`, whose
`init_key` composes three initializer calls.  The rest of the layer
(registry, codec, key operations) is modelled from the specification;
every such definition carries a doc comment starting `Modelled from the
spec:`.
-/

namespace GuileSSH

/-- The three observable initialization steps performed by `init_key`:
registration of the key type, registration of the key functions, and
arming of the native thread-safety callbacks. -/
inductive InitStep where
  | keyType
  | keyFunc
  | pthreads
  deriving DecidableEq, Repr

/-- Process-wide initialization state of the layer: which of the three
sub-initializers have completed. -/
structure LayerState where
  keyTypeRegistered : Bool
  keyFuncRegistered : Bool
  pthreadsArmed : Bool
  deriving DecidableEq, Repr

/-- Modelled from the spec: `init_key_type` (body not under src/) registers
the key type with the host; the spec treats registration as an idempotent
one-time effect.  It returns the updated state and the trace of steps it
performs. -/
def init_key_type (s : LayerState) : LayerState × List InitStep :=
  ({ s with keyTypeRegistered := true }, [.keyType])

/-- Modelled from the spec: `init_key_func` (body not under src/) registers
the key operations with the host; idempotent one-time effect. -/
def init_key_func (s : LayerState) : LayerState × List InitStep :=
  ({ s with keyFuncRegistered := true }, [.keyFunc])

/-- Modelled from the spec: `init_pthreads` (body not under src/) arms the
native library's thread-safety primitives; the spec treats it as "a
one-time idempotent initialization call with no further contract". -/
def init_pthreads (s : LayerState) : LayerState × List InitStep :=
  ({ s with pthreadsArmed := true }, [.pthreads])

/-- Shallow embedding of `init_key` from `src/libguile-ssh/key-main.c`
lines 27-33: it unconditionally calls `init_key_type`, `init_key_func`
and `init_pthreads`, in that order, with no branch and no return value.
The embedding threads the layer state and concatenates the traces. -/
def init_key (s : LayerState) : LayerState × List InitStep :=
  let r1 := init_key_type s
  let r2 := init_key_func r1.1
  let r3 := init_pthreads r2.1
  (r3.1, r1.2 ++ r2.2 ++ r3.2)

/-- The state effect of `init_key` iterated `n` times. -/
def init_key_iter : Nat → LayerState → LayerState
  | 0, s => s
  | n + 1, s => init_key_iter n (init_key s).1

/-- Modelled from the spec: the supported key algorithms
(`RSA | DSA | ECDSA-{256,384,521} | Ed25519`). -/
inductive KeyAlgorithm where
  | rsa
  | dsa
  | ecdsa256
  | ecdsa384
  | ecdsa521
  | ed25519
  deriving DecidableEq, Repr

/-- Modelled from the spec: the role of key material
(`Public | Private | PublicPrivatePair`). -/
inductive KeyRole where
  | pub
  | priv
  | pair
  deriving DecidableEq, Repr

/-- Modelled from the spec: immutable representation of a single key's
bytes, algorithm, role and optional comment (KeyMaterial, §3). -/
structure KeyMaterial where
  algorithm : KeyAlgorithm
  role : KeyRole
  bytes : List Nat
  comment : Option (List Nat)
  deriving DecidableEq, Repr

/-- Modelled from the spec: the handle state machine
`Created → Active → Released`, monotonic (§4.3). -/
inductive HandleState where
  | created
  | active
  | released
  deriving DecidableEq, Repr

/-- Modelled from the spec: a registry entry pairing a handle's state
with the key material it wraps. -/
structure HandleEntry where
  hstate : HandleState
  material : KeyMaterial
  deriving DecidableEq, Repr

/-- Modelled from the spec: the KeyHandle Registry owns the mapping from
opaque handles (indices into a guarded table, §9) to native key
resources; `nextId` is the next fresh handle identity. -/
structure Registry where
  entries : List (Nat × HandleEntry)
  nextId : Nat
  deriving DecidableEq, Repr

/-- Modelled from the spec: the error taxonomy of §7. -/
inductive KeyError where
  | malformedKey
  | unsupportedAlgorithm
  | roleMismatch
  | notPrivateKey
  | notPublicKey
  | handleReleased
  | signingFailed
  | verificationError
  | initializationFailed
  deriving DecidableEq, Repr

/-- Look up the entry registered under handle identity `h`. -/
def findEntry : List (Nat × HandleEntry) → Nat → Option HandleEntry
  | [], _ => none
  | p :: rest, h => if p.1 = h then some p.2 else findEntry rest h

/-- The state of handle `h` in registry `r`, when `h` is registered. -/
def stateAt (r : Registry) (h : Nat) : Option HandleState :=
  (findEntry r.entries h).map HandleEntry.hstate

/-- Modelled from the spec: `acquire(KeyMaterial) -> KeyHandle` wraps the
material into a fresh Active handle registered in the table (§4.2). -/
def acquire (r : Registry) (m : KeyMaterial) : Registry × Nat :=
  ({ entries := (r.nextId, ⟨HandleState.active, m⟩) :: r.entries,
     nextId := r.nextId + 1 }, r.nextId)

/-- Mark every entry registered under `h` as Released. -/
def releaseEntries (l : List (Nat × HandleEntry)) (h : Nat) :
    List (Nat × HandleEntry) :=
  l.map fun p => if p.1 = h then (p.1, ⟨HandleState.released, p.2.material⟩) else p

/-- Modelled from the spec: `release(KeyHandle)` — explicit early release;
idempotent, a second call is a no-op, not an error (§4.2), so it returns
no error value. -/
def release (r : Registry) (h : Nat) : Registry :=
  { r with entries := releaseEntries r.entries h }

/-- Modelled from the spec: `borrow(KeyHandle) -> &KeyMaterial` fails with
`HandleReleased` if already released, otherwise yields the material
(§4.2). -/
def borrow (r : Registry) (h : Nat) : Except KeyError KeyMaterial :=
  match findEntry r.entries h with
  | none => .error .handleReleased
  | some e =>
    match e.hstate with
    | .released => .error .handleReleased
    | _ => .ok e.material

/-- Modelled from the spec: the supported fingerprint hash algorithms. -/
inductive HashAlg where
  | md5
  | sha1
  | sha256
  deriving DecidableEq, Repr

/-- A numeric tag distinguishing hash algorithms inside the digest model. -/
def hashTag : HashAlg → Nat
  | .md5 => 0
  | .sha1 => 1
  | .sha256 => 2

/-- Modelled from the spec: the trusted native library's digest
`fingerprint(KeyHandle, hash) -> bytes`, a deterministic pure function of
the hash algorithm and the hashed bytes. -/
def digest (ha : HashAlg) (bs : List Nat) : List Nat :=
  hashTag ha :: bs.map fun b => (b + hashTag ha) % 256

/-- Modelled from the spec: a Private-role KeyMaterial always carries an
accessible Public-role derivative (§3); this is the deterministic map
from a key's bytes to its public half's bytes. -/
def derivePublicBytes (bs : List Nat) : List Nat :=
  bs.map fun b => (b + 1) % 256

/-- The public-key bytes a handle exposes: its own bytes when the role is
Public, the derived public half otherwise. -/
def publicBytes (m : KeyMaterial) : List Nat :=
  match m.role with
  | .pub => m.bytes
  | _ => derivePublicBytes m.bytes

/-- Modelled from the spec: a Fingerprint is a digest over the public-key
bytes tagged with the hash algorithm used (§3). -/
structure Fingerprint where
  hashAlg : HashAlg
  bytes : List Nat
  deriving DecidableEq, Repr

/-- Modelled from the spec: `fingerprint(KeyHandle, hash_algorithm)`
derives the public half automatically and digests it; fails with
`HandleReleased` once the handle is released (§4.3). -/
def fingerprint (r : Registry) (h : Nat) (ha : HashAlg) :
    Except KeyError Fingerprint :=
  match findEntry r.entries h with
  | none => .error .handleReleased
  | some e =>
    match e.hstate with
    | .released => .error .handleReleased
    | _ => .ok ⟨ha, digest ha (publicBytes e.material)⟩

/-- Modelled from the spec: a Signature carries the signature bytes plus
the algorithm that produced them (§3). -/
structure Signature where
  algorithm : KeyAlgorithm
  sbytes : List Nat
  deriving DecidableEq, Repr

/-- The wire length of a well-formed signature for each algorithm. -/
def sigLen : KeyAlgorithm → Nat
  | .rsa => 256
  | .dsa => 40
  | .ecdsa256 => 64
  | .ecdsa384 => 96
  | .ecdsa521 => 132
  | .ed25519 => 64

/-- Modelled from the spec: the trusted native library's deterministic
signing primitive `sign(KeyHandle, data) -> Signature`; a pure function
of the key bytes and the message, always of the algorithm's length. -/
def sigBytes (m : KeyMaterial) (msg : List Nat) : List Nat :=
  (List.range (sigLen m.algorithm)).map fun i => (i + (m.bytes ++ msg).sum) % 256

/-- Modelled from the spec: `sign(KeyHandle, message_bytes) -> Signature`
requires a Private-capable handle, failing with `NotPrivateKey`
otherwise and with `HandleReleased` once released (§4.3). -/
def sign (r : Registry) (h : Nat) (msg : List Nat) :
    Except KeyError Signature :=
  match findEntry r.entries h with
  | none => .error .handleReleased
  | some e =>
    match e.hstate with
    | .released => .error .handleReleased
    | _ =>
      match e.material.role with
      | .pub => .error .notPrivateKey
      | _ => .ok ⟨e.material.algorithm, sigBytes e.material msg⟩

/-- Modelled from the spec: `verify(KeyHandle, message_bytes, Signature)
-> bool`; a mismatched but well-formed signature is the normal value
`false`, and only malformed inputs (algorithm mismatch or wrong
signature encoding length) produce `VerificationError` (§4.3). -/
def verify (r : Registry) (h : Nat) (msg : List Nat) (sig : Signature) :
    Except KeyError Bool :=
  match findEntry r.entries h with
  | none => .error .handleReleased
  | some e =>
    match e.hstate with
    | .released => .error .handleReleased
    | _ =>
      if sig.algorithm ≠ e.material.algorithm then .error .verificationError
      else if sig.sbytes.length ≠ sigLen e.material.algorithm then
        .error .verificationError
      else .ok (decide (sig.sbytes = sigBytes e.material msg))

/-- The registry-mutating operations: only acquisition and release
change the handle table. -/
inductive RegOp where
  | opAcquire (m : KeyMaterial)
  | opRelease (h : Nat)

/-- Apply one registry-mutating operation. -/
def applyOp (r : Registry) : RegOp → Registry
  | .opAcquire m => (acquire r m).1
  | .opRelease h => release r h

/-- Apply a sequence of registry-mutating operations, oldest first. -/
def applyOps (r : Registry) : List RegOp → Registry
  | [] => r
  | op :: ops => applyOps (applyOp r op) ops

/-- Well-formedness of the registry: every registered handle identity is
below the next fresh identity, so fresh handles never shadow old ones. -/
def wfRegistry (r : Registry) : Bool :=
  r.entries.all fun p => decide (p.1 < r.nextId)

end GuileSSH

namespace GuileSSH

theorem findEntry_mem {l : List (Nat × HandleEntry)} {h : Nat} {e : HandleEntry}
    (hf : findEntry l h = some e) : (h, e) ∈ l := by
  induction l with
  | nil => simp [findEntry] at hf
  | cons p rest ih =>
      cases p with
      | mk i e0 =>
          by_cases hp : i = h
          · simp [findEntry, hp] at hf
            subst hp
            subst hf
            exact List.mem_cons_self _ _
          · simp [findEntry, hp] at hf
            exact List.mem_cons_of_mem _ (ih hf)

theorem findEntry_releaseEntries (l : List (Nat × HandleEntry)) (h : Nat) :
    findEntry (releaseEntries l h) h =
      (findEntry l h).map fun e => ⟨HandleState.released, e.material⟩ := by
  induction l with
  | nil => rfl
  | cons p rest ih =>
      by_cases hp : p.1 = h
      · simp [releaseEntries, findEntry, hp]
      · simp [releaseEntries, findEntry, hp] at ih ⊢
        simpa [releaseEntries] using ih

theorem findEntry_releaseEntries_ne (l : List (Nat × HandleEntry)) {g h : Nat}
    (hne : g ≠ h) : findEntry (releaseEntries l g) h = findEntry l h := by
  induction l with
  | nil => rfl
  | cons p rest ih =>
      by_cases hp : p.1 = h
      · have hg : ¬ p.1 = g := fun hc => hne (hc ▸ hp)
        simp [releaseEntries, findEntry, hp, hg, hne.symm]
      · by_cases hg : p.1 = g
        · simp [releaseEntries, findEntry, hp, hg, hne]
          simpa [releaseEntries] using ih
        · simp [releaseEntries, findEntry, hp, hg]
          simpa [releaseEntries] using ih

theorem releaseEntries_idem (l : List (Nat × HandleEntry)) (h : Nat) :
    releaseEntries (releaseEntries l h) h = releaseEntries l h := by
  induction l with
  | nil => rfl
  | cons p rest ih =>
      by_cases hp : p.1 = h <;>
        simp [releaseEntries, hp] at ih ⊢ <;>
        simpa [releaseEntries] using ih

theorem wfRegistry_release {r : Registry} (hwf : wfRegistry r = true) (h : Nat) :
    wfRegistry (release r h) = true := by
  simp only [wfRegistry, release, releaseEntries, List.all_eq_true] at hwf ⊢
  intro p hp
  obtain ⟨q, hq, hfq⟩ := List.mem_map.mp hp
  have hkey : p.1 = q.1 := by
    by_cases hc : q.1 = h
    · simp [hc] at hfq
      rw [← hfq]
      exact hc.symm
    · simp [hc] at hfq
      rw [← hfq]
  rw [hkey]
  exact hwf q hq

theorem wfRegistry_applyOp {r : Registry} (hwf : wfRegistry r = true) (op : RegOp) :
    wfRegistry (applyOp r op) = true := by
  cases op with
  | opAcquire m =>
      simp only [wfRegistry, applyOp, acquire, List.all_eq_true, List.mem_cons] at hwf ⊢
      rintro p (rfl | hp)
      · simp
      · have := hwf p hp
        simp at this ⊢
        omega
  | opRelease h => exact wfRegistry_release hwf h

theorem stateAt_applyOp_released {r : Registry} {h : Nat}
    (hwf : wfRegistry r = true)
    (hrel : stateAt r h = some HandleState.released) (op : RegOp) :
    stateAt (applyOp r op) h = some HandleState.released := by
  obtain ⟨e, he, hes⟩ := Option.map_eq_some'.mp hrel
  cases op with
  | opAcquire m =>
      have hmem : (h, e) ∈ r.entries := findEntry_mem he
      have hlt : h < r.nextId := by
        have := List.all_eq_true.mp hwf (h, e) hmem
        simpa using this
      have hne : ¬ r.nextId = h := by omega
      simp [applyOp, acquire, stateAt, findEntry, hne]
      exact ⟨e, he, hes⟩
  | opRelease g =>
      by_cases hg : g = h
      · subst hg
        simp [applyOp, release, stateAt, findEntry_releaseEntries, he]
      · simp [applyOp, release, stateAt, findEntry_releaseEntries_ne _ hg, he, hes]

theorem stateAt_applyOps_released {r : Registry} {h : Nat}
    (hwf : wfRegistry r = true)
    (hrel : stateAt r h = some HandleState.released) (ops : List RegOp) :
    stateAt (applyOps r ops) h = some HandleState.released := by
  induction ops generalizing r with
  | nil => exact hrel
  | cons op rest ih =>
      exact ih (wfRegistry_applyOp hwf op) (stateAt_applyOp_released hwf hrel op)

theorem stateAt_release_self {r : Registry} {h : Nat} {e : HandleEntry}
    (he : findEntry r.entries h = some e) :
    stateAt (release r h) h = some HandleState.released := by
  simp [release, stateAt, findEntry_releaseEntries, he]

/-- Modelled from the spec: the external key encodings handled by the
Codec — a PEM-like textual form and a binary wire form (§6). -/
inductive KeyFormat where
  | pem
  | wire
  deriving DecidableEq, Repr

/-- Header tag of a format inside the encoding model. -/
def formatTag : KeyFormat → Nat
  | .pem => 0
  | .wire => 1

/-- Header tag of an algorithm inside the encoding model. -/
def algTag : KeyAlgorithm → Nat
  | .rsa => 0
  | .dsa => 1
  | .ecdsa256 => 2
  | .ecdsa384 => 3
  | .ecdsa521 => 4
  | .ed25519 => 5

/-- Decode an algorithm tag; tags outside the supported set decode to
`none` (the `UnsupportedAlgorithm` case of `parse`). -/
def algOfTag : Nat → Option KeyAlgorithm
  | 0 => some .rsa
  | 1 => some .dsa
  | 2 => some .ecdsa256
  | 3 => some .ecdsa384
  | 4 => some .ecdsa521
  | 5 => some .ed25519
  | _ => none

/-- Header tag of a role inside the encoding model. -/
def roleTag : KeyRole → Nat
  | .pub => 0
  | .priv => 1
  | .pair => 2

/-- Decode a role tag. -/
def roleOfTag : Nat → Option KeyRole
  | 0 => some .pub
  | 1 => some .priv
  | 2 => some .pair
  | _ => none

/-- Modelled from the spec: which formats are supported for which
algorithm; the fragment leaves the exact set open, and the canonical
contract supports both encodings for every supported algorithm. -/
def formatSupported (_f : KeyFormat) (_a : KeyAlgorithm) : Bool := true

/-- Modelled from the spec: role and bytes must be mutually consistent
with the algorithm — e.g. an Ed25519 private key has a fixed byte
length (§3). -/
def validKeyMaterial (m : KeyMaterial) : Bool :=
  match m.algorithm, m.role with
  | .ed25519, .pub => m.bytes.length == 32
  | .ed25519, _ => m.bytes.length == 64
  | _, _ => !m.bytes.isEmpty

/-- Encoding of the optional comment trailer. -/
def commentEnc : Option (List Nat) → List Nat
  | none => [0]
  | some c => 1 :: c

/-- Decoding of the optional comment trailer. -/
def commentDec : List Nat → Option (Option (List Nat))
  | [0] => some none
  | 1 :: c => some (some c)
  | _ => none

/-- Modelled from the spec: `serialize(KeyMaterial, target_format) ->
bytes_or_text`, deterministic: a header carrying the format, algorithm
and role tags and the key-byte count, then the key bytes, then the
comment trailer (§4.1). -/
def serialize (m : KeyMaterial) (f : KeyFormat) : List Nat :=
  formatTag f :: algTag m.algorithm :: roleTag m.role :: m.bytes.length ::
    (m.bytes ++ commentEnc m.comment)

/-- Modelled from the spec: `parse(bytes_or_text, expected_role?) ->
KeyMaterial`, failing with `MalformedKey` when the encoding cannot be
decoded, `UnsupportedAlgorithm` when the decoded algorithm is not in the
supported set, and `RoleMismatch` when `expected_role` is given and
conflicts with the decoded role (§4.1). -/
def parse (enc : List Nat) (expectedRole : Option KeyRole) :
    Except KeyError KeyMaterial :=
  match enc with
  | ft :: a :: rt :: len :: rest =>
    if ft ≠ formatTag .pem ∧ ft ≠ formatTag .wire then .error .malformedKey
    else
      match algOfTag a with
      | none => .error .unsupportedAlgorithm
      | some alg =>
        match roleOfTag rt with
        | none => .error .malformedKey
        | some role =>
          if rest.length < len then .error .malformedKey
          else
            match commentDec (rest.drop len) with
            | none => .error .malformedKey
            | some c =>
              match expectedRole with
              | some er =>
                if er ≠ role then .error .roleMismatch
                else .ok ⟨alg, role, rest.take len, c⟩
              | none => .ok ⟨alg, role, rest.take len, c⟩
  | _ => .error .malformedKey

theorem algOfTag_algTag (a : KeyAlgorithm) : algOfTag (algTag a) = some a := by
  cases a <;> rfl

theorem roleOfTag_roleTag (ro : KeyRole) : roleOfTag (roleTag ro) = some ro := by
  cases ro <;> rfl

theorem commentDec_commentEnc (c : Option (List Nat)) :
    commentDec (commentEnc c) = some c := by
  cases c <;> rfl

/-- A concrete key material used by the closed witness theorems. -/
def mW : KeyMaterial :=
  ⟨KeyAlgorithm.ed25519, KeyRole.pair, [1, 2, 3], none⟩

/-- A concrete one-handle registry used by the closed witness theorems:
handle 0 is Active and wraps `mW`. -/
def rW : Registry :=
  ⟨[(0, ⟨HandleState.active, mW⟩)], 1⟩

/-- A concrete valid public Ed25519 key material used by the closed
witness theorems. -/
def mPubW : KeyMaterial :=
  ⟨KeyAlgorithm.ed25519, KeyRole.pub, List.replicate 32 7, some [99]⟩

/-- A concrete well-formed Ed25519 signature, of the right length but
not matching any signature over `mW`, used by the closed witness
theorems. -/
def sigW : Signature :=
  ⟨KeyAlgorithm.ed25519, List.replicate 64 0⟩

end GuileSSH

namespace GuileSSH

/-- **C1.** Every call to `init_key` performs exactly the three steps
key-type registration, key-function registration, thread-safety arming,
in that fixed order, each exactly once: its trace is exactly
`[keyType, keyFunc, pthreads]`, whatever the current state. -/
theorem init_key_three_steps_in_order (s : LayerState) :
    (init_key s).2 = [InitStep.keyType, InitStep.keyFunc, InitStep.pthreads] ∧
    (init_key s).2.count InitStep.keyType = 1 ∧
    (init_key s).2.count InitStep.keyFunc = 1 ∧
    (init_key s).2.count InitStep.pthreads = 1 := by
  refine ⟨rfl, ?_, ?_, ?_⟩ <;> rfl

/-- **C2.** The initialization entry point is idempotent on the layer
state: iterating it `n + 1` times leaves the process in the same state
as a single invocation, so every invocation after the first is a no-op. -/
theorem init_key_idempotent (n : Nat) (s : LayerState) :
    init_key_iter (n + 1) s = init_key_iter 1 s := by
  induction n generalizing s with
  | zero => rfl
  | succ k ih =>
      have hstep : (init_key (init_key s).1).1 = (init_key s).1 := rfl
      calc init_key_iter (k + 2) s
          = init_key_iter (k + 1) (init_key s).1 := rfl
        _ = init_key_iter 1 (init_key s).1 := ih (init_key s).1
        _ = init_key_iter 1 s := by
            show (init_key (init_key s).1).1 = (init_key s).1
            exact hstep

/-- **C9.** `init_key` has no failure channel: its trace does not depend
on the state (no conditional branch), and every call unconditionally runs
all three initializer steps to completion; its type returns no error, so
it cannot report an initialization failure to its caller. -/
theorem init_key_no_failure_channel (s t : LayerState) :
    (init_key s).2 = (init_key t).2 ∧
    (init_key s).2.length = 3 ∧
    InitStep.keyType ∈ (init_key s).2 ∧
    InitStep.keyFunc ∈ (init_key s).2 ∧
    InitStep.pthreads ∈ (init_key s).2 := by
  refine ⟨rfl, rfl, ?_, ?_, ?_⟩ <;> simp [init_key, init_key_type, init_key_func, init_pthreads]

/-- **C3.** Use-after-release is fail-fast and deterministic: once
`release(h)` has been performed on a registered handle `h`, borrow,
fingerprint, sign and verify on `h` all return the `HandleReleased`
error (a typed result, never a crash and never a stale value), and after
any further sequence of registry operations the handle is still
Released: it never transitions back to Active. -/
theorem use_after_release_fail_fast (r : Registry) (h : Nat)
    (ha : HashAlg) (msg : List Nat) (sig : Signature) (ops : List RegOp)
    (hwf : wfRegistry r = true)
    (hreg : (findEntry r.entries h).isSome = true) :
    borrow (release r h) h = .error .handleReleased ∧
    fingerprint (release r h) h ha = .error .handleReleased ∧
    sign (release r h) h msg = .error .handleReleased ∧
    verify (release r h) h msg sig = .error .handleReleased ∧
    stateAt (applyOps (release r h) ops) h = some HandleState.released := by
  obtain ⟨e, he⟩ := Option.isSome_iff_exists.mp hreg
  have hfe : findEntry (release r h).entries h =
      some ⟨HandleState.released, e.material⟩ := by
    simp [release, findEntry_releaseEntries, he]
  refine ⟨?_, ?_, ?_, ?_, ?_⟩
  · simp [borrow, hfe]
  · simp [fingerprint, hfe]
  · simp [sign, hfe]
  · simp [verify, hfe]
  · exact stateAt_applyOps_released (wfRegistry_release hwf h)
      (stateAt_release_self he) ops

/-- Closed witness for the use-after-release theorem at the concrete
registry `rW` and handle 0. -/
theorem use_after_release_fail_fast_witness :
    borrow (release rW 0) 0 = .error .handleReleased ∧
    fingerprint (release rW 0) 0 HashAlg.sha256 = .error .handleReleased ∧
    sign (release rW 0) 0 [7] = .error .handleReleased ∧
    verify (release rW 0) 0 [7] ⟨KeyAlgorithm.ed25519, []⟩ =
      .error .handleReleased ∧
    stateAt (applyOps (release rW 0) [RegOp.opRelease 0]) 0 =
      some HandleState.released :=
  use_after_release_fail_fast rW 0 HashAlg.sha256 [7]
    ⟨KeyAlgorithm.ed25519, []⟩ [RegOp.opRelease 0] (by decide) (by decide)

/-- **C4.** `release` is idempotent: `release(h); release(h)` leaves the
registry, and hence the handle, in exactly the state of a single
`release(h)`; the second call is total and returns no error value, so it
is a no-op that never faults. -/
theorem release_idempotent (r : Registry) (h : Nat) :
    release (release r h) h = release r h := by
  simp [release, releaseEntries_idem]

/-- **C5.** Codec round-trip: for every valid KeyMaterial `m` and every
format `f` supported for `m`'s algorithm, parsing the serialization of
`m` with `m`'s role expected yields `m` back, byte-identical. -/
theorem parse_serialize_roundtrip (m : KeyMaterial) (f : KeyFormat)
    (hv : validKeyMaterial m = true)
    (hf : formatSupported f m.algorithm = true) :
    parse (serialize m f) (some m.role) = .ok m := by
  have hft : ¬(formatTag f ≠ formatTag KeyFormat.pem ∧
      formatTag f ≠ formatTag KeyFormat.wire) := by
    cases f <;> simp [formatTag]
  cases m with
  | mk alg role bs c =>
      simp [serialize, parse, hft, algOfTag_algTag, roleOfTag_roleTag,
        List.drop_left, List.take_left, commentDec_commentEnc,
        Nat.not_lt, List.length_append]

/-- Closed witness for the codec round-trip theorem at the concrete
valid Ed25519 public key `mPubW` in the PEM-like format. -/
theorem parse_serialize_roundtrip_witness :
    parse (serialize mPubW KeyFormat.pem) (some mPubW.role) = .ok mPubW :=
  parse_serialize_roundtrip mPubW KeyFormat.pem (by decide) (by decide)

/-- **C6.** `verify` never raises on a mismatched signature: on a live
(Public-capable) handle whose material is `km`, a well-formed signature
of the right algorithm and encoding length that does not match yields
the normal value `false`, and a `VerificationError` arises only from a
malformed input — a wrong algorithm or a wrong encoding length. -/
theorem verify_mismatch_not_error (r : Registry) (h : Nat) (msg : List Nat)
    (sig : Signature) (km : KeyMaterial)
    (hb : borrow r h = .ok km) :
    (sig.algorithm = km.algorithm →
     sig.sbytes.length = sigLen km.algorithm →
     sig.sbytes ≠ sigBytes km msg →
     verify r h msg sig = .ok false) ∧
    (verify r h msg sig = .error .verificationError →
     sig.algorithm ≠ km.algorithm ∨
     sig.sbytes.length ≠ sigLen km.algorithm) := by
  unfold borrow at hb
  cases hfe : findEntry r.entries h with
  | none => rw [hfe] at hb; simp at hb
  | some e =>
      rw [hfe] at hb
      cases hst : e.hstate with
      | released => simp [hst] at hb
      | created =>
          simp [hst] at hb
          have hkm : e.material = km := hb
          constructor
          · intro h1 h2 h3
            simp [verify, hfe, hst, hkm, h1, h2, h3]
          · intro hv
            by_cases ha : sig.algorithm = km.algorithm
            · by_cases hl : sig.sbytes.length = sigLen km.algorithm
              · exfalso
                simp [verify, hfe, hst, hkm, ha, hl] at hv
              · exact Or.inr hl
            · exact Or.inl ha
      | active =>
          simp [hst] at hb
          have hkm : e.material = km := hb
          constructor
          · intro h1 h2 h3
            simp [verify, hfe, hst, hkm, h1, h2, h3]
          · intro hv
            by_cases ha : sig.algorithm = km.algorithm
            · by_cases hl : sig.sbytes.length = sigLen km.algorithm
              · exfalso
                simp [verify, hfe, hst, hkm, ha, hl] at hv
              · exact Or.inr hl
            · exact Or.inl ha

/-- Closed witness for the verify-mismatch theorem: on the live handle 0
of `rW`, the well-formed but non-matching signature `sigW` verifies to
the normal value `false`. -/
theorem verify_mismatch_not_error_witness :
    verify rW 0 [7] sigW = .ok false :=
  (verify_mismatch_not_error rW 0 [7] sigW mW rfl).1
    (by decide) (by decide) (by decide)

/-- **C7.** Fingerprint determinism: fingerprinting a handle freshly
acquired from material parsed from an encoding is equal across repeated
calls on the same handle, and equal across handles acquired — even into
different registries — from independently parsed copies of the same
encoded key. -/
theorem fingerprint_deterministic (r1 r2 : Registry) (enc : List Nat)
    (ro : Option KeyRole) (m1 m2 : KeyMaterial) (ha : HashAlg)
    (hp1 : parse enc ro = .ok m1) (hp2 : parse enc ro = .ok m2) :
    fingerprint (acquire r1 m1).1 (acquire r1 m1).2 ha =
      fingerprint (acquire r1 m1).1 (acquire r1 m1).2 ha ∧
    fingerprint (acquire r1 m1).1 (acquire r1 m1).2 ha =
      fingerprint (acquire r2 m2).1 (acquire r2 m2).2 ha := by
  have hm : m1 = m2 := by
    rw [hp1] at hp2
    simpa using hp2
  subst hm
  refine ⟨rfl, ?_⟩
  simp [fingerprint, acquire, findEntry]

/-- Closed witness for the fingerprint-determinism theorem: two handles
acquired into different registries from two parses of the same encoding
of `mPubW` have the same SHA-256 fingerprint. -/
theorem fingerprint_deterministic_witness :
    fingerprint (acquire ⟨[], 0⟩ mPubW).1 (acquire ⟨[], 0⟩ mPubW).2
        HashAlg.sha256 =
      fingerprint (acquire ⟨[], 0⟩ mPubW).1 (acquire ⟨[], 0⟩ mPubW).2
        HashAlg.sha256 ∧
    fingerprint (acquire ⟨[], 0⟩ mPubW).1 (acquire ⟨[], 0⟩ mPubW).2
        HashAlg.sha256 =
      fingerprint (acquire rW mPubW).1 (acquire rW mPubW).2
        HashAlg.sha256 :=
  fingerprint_deterministic ⟨[], 0⟩ rW (serialize mPubW KeyFormat.pem)
    (some KeyRole.pub) mPubW mPubW HashAlg.sha256 rfl rfl

end GuileSSH
